import Mathlib

/-! # Linspect (`inspect.c`): a shallow embedding and its verified properties

The program reads `/proc/stat` with `fopen`/`fgets`/`strstr`/`sscanf`, reads the
memory record with `sysinfo`, and prints a report from `main`.

Conventions of the embedding:

* a stream (the content of `/proc/stat`) is a `List Char`, one `Char` per byte;
  a stream that cannot be opened is `none`;
* every C function that writes to `stderr` through `perror` returns the list of
  messages it passed to `perror` next to its C return value;
* automatic variables that the C code reads without having initialised them
  (`proc_count`, `switch_count`, `tmpTimes`, `ch_buf`) are explicit parameters
  holding the indeterminate prior content;
* integer types are those of Linux on x86-64 (LP64): `int`/`unsigned` have 32
  bits, `long`, `unsigned long` and `long long` have 64 bits. Arithmetic is done
  on `Int`/`Nat` with explicit reduction;
* numeric conversions of `sscanf` follow glibc: the digits are converted by
  `strtol`/`strtoul` (saturating at the range of `long`/`unsigned long`) and the
  result is stored through the `int *`/`unsigned *` argument by truncation;
* the destination `label[32]` of `%s` in the two counter scans holds a token of
  at most 31 bytes and its NUL; a longer token overflows it, the behaviour is
  undefined, and the model assigns no result (`none`);
* the destination `label[3]` of `%s` in `getCpuTimes` is write-only in the
  program; its capacity is a matter of memory layout and is not modelled.
-/

namespace Linspect

/-! ## The C library functions used by the program -/

/-- C `isspace` in the "C" locale: space, `\t`, `\n`, `\v`, `\f`, `\r`. -/
def isspace (c : Char) : Bool :=
  c.toNat == 32 || (decide (9 ≤ c.toNat) && decide (c.toNat ≤ 13))

/-- C `isdigit`. -/
def isdigit (c : Char) : Bool :=
  decide (48 ≤ c.toNat) && decide (c.toNat ≤ 57)

/-- The newline byte. -/
def NL : Char := Char.ofNat 10

/-- The terminating NUL byte of a C string. -/
def NUL : Char := Char.ofNat 0

/-- Copy loop of `fgets`: at most `n` bytes are taken from the stream, stopping
after a newline. Returns the bytes stored and the rest of the stream. -/
def fgetsAux : Nat → List Char → List Char × List Char
  | 0, s => ([], s)
  | _ + 1, [] => ([], [])
  | n + 1, c :: s =>
    if c = NL then ([c], s)
    else ((c :: (fgetsAux n s).1), (fgetsAux n s).2)

/-- C `fgets(buf, size, stream)`: `none` is the `NULL` returned at end of file
when no byte was read; otherwise the bytes stored in `buf` (at most `size - 1`)
and the rest of the stream. -/
def fgets (size : Nat) (stream : List Char) : Option (List Char × List Char) :=
  match stream with
  | [] => none
  | _ :: _ => some (fgetsAux (size - 1) stream)

/-- The C string held by a buffer: its bytes up to the first NUL. -/
def cstring (buf : List Char) : List Char :=
  buf.takeWhile (fun c => c != NUL)

/-- C `strstr(haystack, needle) != NULL`. -/
def strstr : List Char → List Char → Bool
  | [], needle => needle.isEmpty
  | c :: hay, needle => needle.isPrefixOf (c :: hay) || strstr hay needle

/-- White space skipped by `sscanf` before `%s`, `%d`, `%u` and for a blank in
the format. -/
def skipSpace (s : List Char) : List Char :=
  s.dropWhile isspace

/-- The `%s` conversion of `sscanf`: skips white space, then takes the run of
non-space bytes. `none` is the input failure at the end of the string. -/
def conv_s (s : List Char) : Option (List Char × List Char) :=
  match skipSpace s with
  | [] => none
  | c :: t => some ((c :: t).takeWhile (fun x => !isspace x),
                    (c :: t).dropWhile (fun x => !isspace x))

/-- Value of a run of decimal digits. -/
def digitsVal (ds : List Char) : Nat :=
  ds.foldl (fun acc c => 10 * acc + (c.toNat - 48)) 0

/-- The subject sequence of a decimal integer conversion: optional white space,
an optional sign, one or more digits. Returns the sign (`true` for `-`), the
magnitude and the rest of the input; `none` is a matching failure. -/
def scanNumber (s : List Char) : Option (Bool × Nat × List Char) :=
  let body : Bool × List Char :=
    match skipSpace s with
    | c :: t => if c.toNat = 45 then (true, t) else if c.toNat = 43 then (false, t)
                else (false, c :: t)
    | [] => (false, [])
  let ds := body.2.takeWhile isdigit
  if ds.isEmpty then none
  else some (body.1, digitsVal ds, body.2.dropWhile isdigit)

/-- Conversion to a signed two's-complement integer of `bits` bits. -/
def wrapSigned (bits : Nat) (v : Int) : Int :=
  (v + 2 ^ (bits - 1)) % 2 ^ bits - 2 ^ (bits - 1)

/-- C `strtol` on a sign and a magnitude, saturating at the range of `long`. -/
def strtol (neg : Bool) (mag : Nat) : Int :=
  if neg then max (-(mag : Int)) (-(2 ^ 63)) else min (mag : Int) (2 ^ 63 - 1)

/-- C `strtoul` on a sign and a magnitude: saturates at `ULONG_MAX`, and negates
modulo `2^64` after a minus sign. -/
def strtoul (neg : Bool) (mag : Nat) : Nat :=
  if 2 ^ 64 ≤ mag then 2 ^ 64 - 1
  else if neg then (2 ^ 64 - mag) % 2 ^ 64 else mag

/-- The `%d` conversion of `sscanf`, stored through an `int *`. -/
def conv_d (s : List Char) : Option (Int × List Char) :=
  match scanNumber s with
  | none => none
  | some (neg, mag, rest) => some (wrapSigned 32 (strtol neg mag), rest)

/-- The `%u` conversion of `sscanf`, stored through an `unsigned *`. -/
def conv_u (s : List Char) : Option (Nat × List Char) :=
  match scanNumber s with
  | none => none
  | some (neg, mag, rest) => some (strtoul neg mag % 2 ^ 32, rest)

/-- `sscanf(str, "%s %d", label, &count)` with `char label[32]`: the value of
`count` after the call, given its value `count₀` before. Nothing is stored when
a conversion fails. `none` when the token does not fit `label` (32 bytes or
more before its NUL): the store overflows the buffer and the behaviour is
undefined. -/
def sscanf_s_d (str : List Char) (count₀ : Int) : Option Int :=
  match conv_s str with
  | none => some count₀
  | some (label, rest) =>
    if 32 ≤ label.length then none
    else
      match conv_d (skipSpace rest) with
      | none => some count₀
      | some (v, _) => some v

/-- Up to `k` successive `%u` conversions (each blank of the format skips white
space); the list stops at the first conversion that fails. -/
def scanUnsigned : Nat → List Char → List Nat
  | 0, _ => []
  | k + 1, s =>
    match conv_u (skipSpace s) with
    | none => []
    | some (v, rest) => v :: scanUnsigned k rest

/-! ## Data types of the program -/

/-- The struct `cpu_time`. -/
structure cpu_time where
  user : Nat
  nice : Nat
  system : Nat
  idle : Nat
  iowait : Nat
  irq : Nat
  softirq : Nat
  deriving DecidableEq, Repr

/-- The fields of `struct sysinfo` read by the program. -/
structure sysinfo where
  totalram : Nat
  freeram : Nat
  totalswap : Nat
  freeswap : Nat
  mem_unit : Nat
  deriving DecidableEq, Repr

/-- A C return value together with the messages passed to `perror`. -/
structure Outcome (α : Type) where
  value : α
  stderr : List String
  deriving DecidableEq, Repr

/-- `sscanf(ch_buf, "%s %u %u %u %u %u %u %u", label, &tmpTimes.user, ...)`: the
content of `tmpTimes` after the call, given its content before. -/
def sscanf_cpu (str : List Char) (tmpTimes : cpu_time) : cpu_time :=
  match conv_s str with
  | none => tmpTimes
  | some (_, rest) =>
    let vs := scanUnsigned 7 rest
    { user := (vs.get? 0).getD tmpTimes.user
      nice := (vs.get? 1).getD tmpTimes.nice
      system := (vs.get? 2).getD tmpTimes.system
      idle := (vs.get? 3).getD tmpTimes.idle
      iowait := (vs.get? 4).getD tmpTimes.iowait
      irq := (vs.get? 5).getD tmpTimes.irq
      softirq := (vs.get? 6).getD tmpTimes.softirq }

/-! ## The readers of `/proc/stat` -/

/-- The diagnostic written when `/proc/stat` cannot be opened. -/
def openFailedMessage : String :=
  "Unable to open /proc/stat."

/-- The diagnostic written when no line is matched. -/
def notFoundMessage : String :=
  "Unable to parse /proc/stat. No process count was found."

/-- The `while (fgets(...) != NULL)` loop shared by `processesSinceBoot` and
`contextSwitchesSinceBoot`: the first buffer whose C string contains `word`
is scanned with `"%s %d"` and the count is returned; at end of file a
diagnostic is written and `0` is returned. The first argument bounds the number
of iterations. `none` means that the model assigns no result: the bound was
reached, or the scanned token overflowed `label`. -/
def scanLoop (word : List Char) (count₀ : Int) : Nat → List Char → Option (Outcome Int)
  | 0, _ => none
  | fuel + 1, stream =>
    match fgets 256 stream with
    | none =>
      some ⟨0, [notFoundMessage]⟩
    | some (ch_buf, rest) =>
      if strstr (cstring ch_buf) word then
        (sscanf_s_d (cstring ch_buf) count₀).map (fun v => ⟨v, []⟩)
      else scanLoop word count₀ fuel rest

/-- C `processesSinceBoot`. `stat` is the content of `/proc/stat` (`none` when
`fopen` fails) and `proc_count` the indeterminate initial value of the local.
Every iteration consumes at least one byte, so `length + 1` iterations reach the
end of the stream; `none` only when the matched line overflows `label`. -/
def processesSinceBoot (stat : Option (List Char)) (proc_count : Int) :
    Option (Outcome Int) :=
  match stat with
  | none => some ⟨-1, [openFailedMessage]⟩
  | some stream => scanLoop "processes".toList proc_count (stream.length + 1) stream

/-- C `contextSwitchesSinceBoot`. -/
def contextSwitchesSinceBoot (stat : Option (List Char)) (switch_count : Int) :
    Option (Outcome Int) :=
  match stat with
  | none => some ⟨-1, [openFailedMessage]⟩
  | some stream => scanLoop "ctxt".toList switch_count (stream.length + 1) stream

/-- C `getCpuTimes`. `cpu` is the caller's record, `ch_buf` and `tmpTimes` the
indeterminate initial contents of the locals (`ch_buf` keeps its content when
`fgets` returns `NULL`). The value is the returned flag and the caller's record
after the call. -/
def getCpuTimes (stat : Option (List Char)) (cpu : cpu_time) (ch_buf : List Char)
    (tmpTimes : cpu_time) : Outcome (Bool × cpu_time) :=
  match stat with
  | none => ⟨(false, cpu), [openFailedMessage]⟩
  | some stream =>
    let buf := match fgets 256 stream with
      | none => ch_buf
      | some (b, _) => b
    ⟨(true, sscanf_cpu (cstring buf) tmpTimes), []⟩

/-! ## The memory functions -/

/-- Reduction of `unsigned long` arithmetic. -/
def u64 (v : Int) : Int := v % 2 ^ 64

/-- Conversion to `long long`. -/
def s64 (v : Int) : Int := wrapSigned 64 v

/-- C `usedVirtualMemory`. `mem` is the record filled by `sysinfo`; the value is
the returned `long long` and the lines printed when `verbose` is set. -/
def usedVirtualMemory (mem : sysinfo) (verbose withSwap : Bool) : Int × List String :=
  let usedMem₀ : Int := s64 (u64 ((mem.totalram : Int) - mem.freeram))
  let usedMem₁ : Int :=
    if withSwap then
      s64 (u64 (u64 usedMem₀ + u64 ((mem.totalswap : Int) - mem.freeswap)))
    else usedMem₀
  let out : List String :=
    if verbose then
      ["Used : " ++ toString usedMem₁ ++ "\n",
       "Mem Unit : " ++ toString (wrapSigned 32 mem.mem_unit) ++ "\n"]
    else []
  (s64 (usedMem₁ * mem.mem_unit), out)

/-- C `totalVirtualMemory`. -/
def totalVirtualMemory (mem : sysinfo) (withSwap : Bool) : Int :=
  if withSwap then s64 (u64 ((mem.totalram : Int) + mem.totalswap))
  else s64 mem.totalram

/-! ## The report: `help`, `printLinuxVersion`, `main` -/

/-- The functions `main` can invoke. -/
inductive Call where
  | help
  | printLinuxVersion
  | getCpuTimes
  | contextSwitchesSinceBoot
  | processesSinceBoot
  | usedVirtualMemory
  | totalVirtualMemory
  deriving DecidableEq, Repr

/-- What one run of `main` does: its return value, the text written by each
`printf`, the messages passed to `perror`, and the functions invoked, in
order. -/
structure Run where
  exit : Int
  stdout : List String
  stderr : List String
  calls : List Call
  deriving DecidableEq, Repr

/-- What the run observes of the host, and the indeterminate initial contents
of the storage the readers use. -/
structure Host where
  uname : Option String
  stat : Option (List Char)
  mem : sysinfo
  cpu : cpu_time
  ch_buf : List Char
  tmpTimes : cpu_time
  switch_count : Int
  proc_count : Int

/-- The usage text of `help`. -/
def helpText : String :=
  "\nLinInspect : Written by Jack Riales\n\nVerbosity\t-v\tEnables printing of debug information.\nSwap Space\t-s\tIncludes any available swap space in\n\t\t\tshowing the memory information.\nHelp\t\t-h\tPrints this help information."

/-- C `help`: prints the usage text and returns `0`. -/
def help : Int × List String :=
  (0, [helpText ++ "\n\n"])

/-- C `printLinuxVersion`; `uname` is the release string, `none` when the
`uname` call fails. -/
def printLinuxVersion (uname : Option String) : Int × List String × List String :=
  match uname with
  | none => (-1, [], ["Could not perform uname. Exiting."])
  | some release => (0, ["\x1b[36mLinux Version: " ++ release ++ "\x1b[0m\n"], [])

/-- Result of the argument loop of `main`. -/
inductive ArgScan where
  | helpRequested
  | flags (verbose useSwap : Bool)
  deriving DecidableEq, Repr

/-- The `for` loop of `main` over `argv[1] .. argv[argc-1]`, started with the
current values of the globals `verbose` and `useSwap`. -/
def argLoop : List String → Bool → Bool → ArgScan
  | [], verbose, useSwap => ArgScan.flags verbose useSwap
  | arg :: rest, verbose, useSwap =>
    if arg = "-h" ∨ arg = "--help" then ArgScan.helpRequested
    else
      argLoop rest (if !verbose then decide (arg = "-v") else verbose)
        (if !useSwap then decide (arg = "-s") else useSwap)

/-- The value of `EXIT_FAILURE` in `main`: the source defines it as `-1` before
it includes `<stdlib.h>`, whose own definition, `1`, replaces that one. -/
def EXIT_FAILURE : Int := 1

/-- The telemetry part of `main`, after the arguments were read. The return
value of `printLinuxVersion` is ignored, as in the source. C leaves the order
of the two calls in the argument list of the last `printf` unspecified; they
are recorded right to left, as gcc evaluates them on x86-64. -/
def report (h : Host) (verbose useSwap : Bool) : Option Run :=
  let ver := printLinuxVersion h.uname
  let cpu := getCpuTimes h.stat h.cpu h.ch_buf h.tmpTimes
  if !cpu.value.1 then
    some { exit := EXIT_FAILURE
           stdout := ver.2.1
           stderr := ver.2.2 ++ cpu.stderr ++ ["Could not get the cpu times!\n"]
           calls := [Call.printLinuxVersion, Call.getCpuTimes] }
  else
    match contextSwitchesSinceBoot h.stat h.switch_count,
          processesSinceBoot h.stat h.proc_count with
    | some ctxt, some procs =>
      let used := usedVirtualMemory h.mem verbose useSwap
      let total := totalVirtualMemory h.mem useSwap
      some { exit := 0
             stdout := ver.2.1 ++
               ["CPU Times ================\n\tUser:\t" ++ toString cpu.value.2.user ++
                "\n\tKernel:\t" ++ toString cpu.value.2.system ++
                "\n\tIdle:\t" ++ toString cpu.value.2.idle ++ "\n",
                "Context Switches: " ++ toString ctxt.value ++ "\n",
                "Processes Since Boot: " ++ toString procs.value ++ "\n"] ++
               used.2 ++
               [if useSwap then
                  "Memory used: " ++ toString used.1 ++ " bytes out of " ++
                    toString total ++ " (including swap space)\n"
                else
                  "Memory used: " ++ toString used.1 ++ " bytes out of " ++
                    toString total ++ "\n"]
             stderr := ver.2.2 ++ cpu.stderr ++ ctxt.stderr ++ procs.stderr
             calls := [Call.printLinuxVersion, Call.getCpuTimes,
                       Call.contextSwitchesSinceBoot, Call.processesSinceBoot,
                       Call.totalVirtualMemory, Call.usedVirtualMemory] }
    | _, _ => none

/-- C `main`. `OSCOMPAT` is the compile-time flag (`true` on Linux), `argv` the
argument vector with the program name first; the globals `verbose` and
`useSwap` start as `false`. `none` when a counter read has no result. -/
def main (OSCOMPAT : Bool) (argv : List String) (h : Host) : Option Run :=
  if OSCOMPAT then
    match argLoop argv.tail false false with
    | ArgScan.helpRequested =>
      some { exit := help.1, stdout := help.2, stderr := [], calls := [Call.help] }
    | ArgScan.flags verbose useSwap => report h verbose useSwap
  else
    some { exit := EXIT_FAILURE
           stdout := []
           stderr := ["Platform not supported. Please use a linux based OS to run this."]
           calls := [] }

/-! ## Shapes of input text used in the statements -/

/-- A non-empty run of white space that stays on the line (no newline). -/
def isBlankRun (ws : List Char) : Prop :=
  ws ≠ [] ∧ ∀ c ∈ ws, isspace c = true ∧ c ≠ NL

/-- A label token: non-empty, without white space and without NUL. -/
def isToken (label : List Char) : Prop :=
  label ≠ [] ∧ ∀ c ∈ label, isspace c = false ∧ c ≠ NUL

/-- The text after a number does not continue it: it is empty or starts with a
byte that is not a digit. -/
def stops (t : List Char) : Prop :=
  ∀ c, t.head? = some c → isdigit c = false

/-- The text of numeric fields: each field is a run of blanks followed by the
decimal digits of its value. -/
def fieldsText : List (List Char × Nat) → List Char
  | [] => []
  | (ws, a) :: fs => ws ++ Nat.toDigits 10 a ++ fieldsText fs

instance (ws : List Char) : Decidable (isBlankRun ws) := by
  unfold isBlankRun; infer_instance

instance (label : List Char) : Decidable (isToken label) := by
  unfold isToken; infer_instance

instance (t : List Char) : Decidable (stops t) :=
  match t with
  | [] => isTrue (by intro c h; simp at h)
  | d :: _ =>
    if hd : isdigit d = false then isTrue (by intro c h; simp at h; subst h; exact hd)
    else isFalse (by intro h; exact hd (h d rfl))

/-- The first white-space-delimited token of a text, the one `%s` stores. -/
def firstToken (s : List Char) : List Char :=
  (skipSpace s).takeWhile (fun x => !isspace x)

/-- A piece of a stream made of complete lines: it is empty or ends with a
newline. -/
def completeLines (pre : List Char) : Prop :=
  pre.getLast? = none ∨ pre.getLast? = some NL

instance (pre : List Char) : Decidable (completeLines pre) := by
  unfold completeLines; infer_instance

/-- The C return value of a counter read, without the diagnostics. -/
def returned (o : Option (Outcome Int)) : Option Int :=
  o.map (fun r => r.value)

/-! # Lemmas and theorems -/

/-! ## Decimal text of a natural number -/

theorem digitChar_toNat (k : Nat) (h : k < 10) : (Nat.digitChar k).toNat = 48 + k := by
  interval_cases k <;> rfl

theorem isdigit_digitChar (k : Nat) (h : k < 10) : isdigit (Nat.digitChar k) = true := by
  interval_cases k <;> rfl

theorem toDigitsCore_acc (fuel : Nat) : ∀ (n : Nat) (ds : List Char),
    Nat.toDigitsCore 10 fuel n ds = Nat.toDigitsCore 10 fuel n [] ++ ds := by
  induction fuel with
  | zero => intro n ds; simp [Nat.toDigitsCore]
  | succ f ih =>
    intro n ds
    simp only [Nat.toDigitsCore]
    by_cases h : n / 10 = 0
    · simp [h]
    · simp only [h, if_false]
      rw [ih (n / 10) (Nat.digitChar (n % 10) :: ds), ih (n / 10) [Nat.digitChar (n % 10)]]
      simp

theorem digitsVal_snoc (ds : List Char) (c : Char) :
    digitsVal (ds ++ [c]) = 10 * digitsVal ds + (c.toNat - 48) := by
  simp [digitsVal, List.foldl_append]

theorem toDigitsCore_spec (fuel : Nat) : ∀ n : Nat, n < fuel →
    digitsVal (Nat.toDigitsCore 10 fuel n []) = n ∧
    (∀ c ∈ Nat.toDigitsCore 10 fuel n [], isdigit c = true) ∧
    Nat.toDigitsCore 10 fuel n [] ≠ [] := by
  induction fuel with
  | zero => intro n h; omega
  | succ f ih =>
    intro n hn
    have hd : n % 10 < 10 := Nat.mod_lt _ (by decide)
    simp only [Nat.toDigitsCore]
    by_cases h : n / 10 = 0
    · simp only [h, if_true]
      refine ⟨?_, ?_, by simp⟩
      · simp [digitsVal, digitChar_toNat _ hd]; omega
      · intro c hc
        simp at hc
        subst hc
        exact isdigit_digitChar _ hd
    · simp only [h, if_false]
      rw [toDigitsCore_acc]
      have hlt : n / 10 < f := by omega
      obtain ⟨h1, h2, h3⟩ := ih (n / 10) hlt
      refine ⟨?_, ?_, by simp [h3]⟩
      · rw [digitsVal_snoc, h1, digitChar_toNat _ hd]; omega
      · intro c hc
        rcases List.mem_append.1 hc with hc | hc
        · exact h2 c hc
        · simp at hc
          subst hc
          exact isdigit_digitChar _ hd

theorem digitsVal_toDigits (n : Nat) : digitsVal (Nat.toDigits 10 n) = n :=
  (toDigitsCore_spec (n + 1) n (Nat.lt_succ_self n)).1

theorem isdigit_of_mem_toDigits (n : Nat) : ∀ c ∈ Nat.toDigits 10 n, isdigit c = true :=
  (toDigitsCore_spec (n + 1) n (Nat.lt_succ_self n)).2.1

theorem toDigits_ne_nil (n : Nat) : Nat.toDigits 10 n ≠ [] :=
  (toDigitsCore_spec (n + 1) n (Nat.lt_succ_self n)).2.2

/-! ## The conversions of `sscanf` on well-shaped text -/

theorem not_isspace_of_isdigit (c : Char) (h : isdigit c = true) : isspace c = false := by
  simp only [isdigit, isspace, Bool.and_eq_true, decide_eq_true_eq] at *
  simp only [Bool.or_eq_false_iff, Bool.and_eq_false_iff, beq_eq_false_iff_ne, decide_eq_false_iff_not]
  omega

theorem not_isdigit_of_isspace (c : Char) (h : isspace c = true) : isdigit c = false := by
  cases hd : isdigit c
  · rfl
  · rw [not_isspace_of_isdigit c hd] at h; cases h

theorem stops_nil : stops [] := by
  intro c h; simp at h

theorem stops_of_isPrefix_stops {t u : List Char} (h : t <+: u) (hu : stops u) : stops t := by
  intro c hc
  cases t with
  | nil => simp at hc
  | cons d t =>
    obtain ⟨v, rfl⟩ := h
    exact hu c (by simpa using hc)

theorem scanNumber_digits (ds rest : List Char) (hne : ds ≠ [])
    (hd : ∀ c ∈ ds, isdigit c = true) (hrest : stops rest) :
    scanNumber (ds ++ rest) = some (false, digitsVal ds, rest) := by
  cases ds with
  | nil => exact absurd rfl hne
  | cons d ds =>
    have hdd : isdigit d = true := hd d (by simp)
    have hsp : isspace d = false := not_isspace_of_isdigit d hdd
    have h45 : d.toNat ≠ 45 := by
      simp only [isdigit, Bool.and_eq_true, decide_eq_true_eq] at hdd; omega
    have h43 : d.toNat ≠ 43 := by
      simp only [isdigit, Bool.and_eq_true, decide_eq_true_eq] at hdd; omega
    have hrt : rest.takeWhile isdigit = [] := by
      cases rest with
      | nil => rfl
      | cons r rest =>
        have := hrest r rfl
        simp [List.takeWhile_cons, this]
    have hrd : rest.dropWhile isdigit = rest := by
      cases rest with
      | nil => rfl
      | cons r rest =>
        have := hrest r rfl
        simp [List.dropWhile_cons, this]
    have htk : (d :: (ds ++ rest)).takeWhile isdigit = d :: ds := by
      have := @List.takeWhile_append_of_pos Char isdigit (d :: ds) rest hd
      rw [List.cons_append] at this
      rw [this, hrt]; simp
    have hdr : (d :: (ds ++ rest)).dropWhile isdigit = rest := by
      have := @List.dropWhile_append_of_pos Char isdigit (d :: ds) rest hd
      rw [List.cons_append] at this
      rw [this, hrd]
    have hsk : skipSpace (d :: (ds ++ rest)) = d :: (ds ++ rest) := by
      simp [skipSpace, List.dropWhile_cons, hsp]
    simp only [scanNumber, List.cons_append, hsk, h45, h43, if_false, htk, hdr]
    simp

theorem skipSpace_append (ws s : List Char) (hws : ∀ c ∈ ws, isspace c = true) :
    skipSpace (ws ++ s) = skipSpace s := by
  unfold skipSpace
  exact List.dropWhile_append_of_pos hws

theorem skipSpace_digits (ds rest : List Char) (hne : ds ≠ [])
    (hd : ∀ c ∈ ds, isdigit c = true) : skipSpace (ds ++ rest) = ds ++ rest := by
  cases ds with
  | nil => exact absurd rfl hne
  | cons d ds =>
    have hsp : isspace d = false := not_isspace_of_isdigit d (hd d (by simp))
    simp [skipSpace, List.dropWhile_cons, hsp]

theorem stops_fieldsText (fs : List (List Char × Nat)) (tail : List Char)
    (hws : ∀ f ∈ fs, isBlankRun f.1) (htail : stops tail) :
    stops (fieldsText fs ++ tail) := by
  cases fs with
  | nil => simpa [fieldsText] using htail
  | cons f fs =>
    obtain ⟨ws, a⟩ := f
    have hb : isBlankRun ws := hws (ws, a) (by simp)
    cases ws with
    | nil => exact absurd rfl hb.1
    | cons w ws =>
      intro c hc
      simp [fieldsText] at hc
      subst hc
      exact not_isdigit_of_isspace _ (hb.2 w (by simp)).1

theorem scanUnsigned_fieldsText (fs : List (List Char × Nat)) (tail : List Char)
    (hws : ∀ f ∈ fs, isBlankRun f.1) (hval : ∀ f ∈ fs, f.2 < 2 ^ 32) (htail : stops tail) :
    scanUnsigned fs.length (fieldsText fs ++ tail) = fs.map (fun f => f.2) := by
  induction fs with
  | nil => rfl
  | cons f fs ih =>
    obtain ⟨ws, a⟩ := f
    have hb : isBlankRun ws := hws (ws, a) (by simp)
    have ha : a < 2 ^ 32 := hval (ws, a) (by simp)
    have hws' : ∀ f ∈ fs, isBlankRun f.1 := fun f hf => hws f (by simp [hf])
    have hval' : ∀ f ∈ fs, f.2 < 2 ^ 32 := fun f hf => hval f (by simp [hf])
    have hst : stops (fieldsText fs ++ tail) := stops_fieldsText fs tail hws' htail
    have h1 : skipSpace (fieldsText ((ws, a) :: fs) ++ tail)
        = Nat.toDigits 10 a ++ (fieldsText fs ++ tail) := by
      simp only [fieldsText, List.append_assoc]
      rw [skipSpace_append ws _ (fun c hc => (hb.2 c hc).1)]
      exact skipSpace_digits _ _ (toDigits_ne_nil a) (isdigit_of_mem_toDigits a)
    have h2 := scanNumber_digits (Nat.toDigits 10 a) (fieldsText fs ++ tail)
      (toDigits_ne_nil a) (isdigit_of_mem_toDigits a) hst
    have h3 : strtoul false a % 2 ^ 32 = a := by
      have h64 : ¬ (2 ^ 64 ≤ a) := by
        have : (2:Nat) ^ 32 < 2 ^ 64 := by norm_num
        omega
      simp only [strtoul, h64, if_false]
      exact Nat.mod_eq_of_lt ha
    simp only [List.length_cons, scanUnsigned, h1, conv_u, h2, digitsVal_toDigits, h3,
      List.map_cons]
    rw [ih hws' hval']

theorem conv_s_token (label rest : List Char) (hl : isToken label)
    (hrest : ∀ c, rest.head? = some c → isspace c = true) :
    conv_s (label ++ rest) = some (label, rest) := by
  obtain ⟨hne, hall⟩ := hl
  have hp : ∀ c ∈ label, (fun x => !isspace x) c = true := by
    intro c hc; simp [(hall c hc).1]
  have hrt : rest.takeWhile (fun x => !isspace x) = [] := by
    cases rest with
    | nil => rfl
    | cons r rest => simp [List.takeWhile_cons, hrest r rfl]
  have hrd : rest.dropWhile (fun x => !isspace x) = rest := by
    cases rest with
    | nil => rfl
    | cons r rest => simp [List.dropWhile_cons, hrest r rfl]
  have htk : (label ++ rest).takeWhile (fun x => !isspace x) = label := by
    rw [List.takeWhile_append_of_pos hp, hrt]; simp
  have hdr : (label ++ rest).dropWhile (fun x => !isspace x) = rest := by
    rw [List.dropWhile_append_of_pos hp, hrd]
  cases label with
  | nil => exact absurd rfl hne
  | cons l label =>
    rw [List.cons_append] at htk hdr
    have hsk : skipSpace (l :: (label ++ rest)) = l :: (label ++ rest) := by
      simp [skipSpace, List.dropWhile_cons, (hall l (by simp)).1]
    simp only [conv_s, List.cons_append, hsk, htk, hdr]

/-! ## `fgets` and C strings -/

theorem fgets_of_ne_nil (n : Nat) (s : List Char) (h : s ≠ []) :
    fgets (n + 1) s = some (fgetsAux n s) := by
  cases s with
  | nil => exact absurd rfl h
  | cons c s => rfl

theorem fgetsAux_append (n : Nat) : ∀ s : List Char,
    (fgetsAux n s).1 ++ (fgetsAux n s).2 = s := by
  induction n with
  | zero => intro s; simp [fgetsAux]
  | succ n ih =>
    intro s
    cases s with
    | nil => simp [fgetsAux]
    | cons c s =>
      by_cases hc : c = NL
      · simp [fgetsAux, hc]
      · simp [fgetsAux, hc, ih s]

theorem fgetsAux_fst_isPrefix_stream (n : Nat) (s : List Char) : (fgetsAux n s).1 <+: s :=
  ⟨(fgetsAux n s).2, fgetsAux_append n s⟩

theorem fgetsAux_snd_isSuffix_stream (n : Nat) (s : List Char) : (fgetsAux n s).2 <:+ s :=
  ⟨(fgetsAux n s).1, fgetsAux_append n s⟩

theorem fgetsAux_line_start (P : List Char) : ∀ (n : Nat) (tail : List Char),
    (∀ c ∈ P, c ≠ NL) → P.length ≤ n →
    (fgetsAux n (P ++ tail)).1 = P ++ (fgetsAux (n - P.length) tail).1 := by
  induction P with
  | nil => intro n tail _ _; simp
  | cons p P ih =>
    intro n tail hnl hlen
    cases n with
    | zero => simp at hlen
    | succ n =>
      have hp : p ≠ NL := hnl p (by simp)
      have hlen' : P.length ≤ n := by simpa using hlen
      have := ih n tail (fun c hc => hnl c (by simp [hc])) hlen'
      simp [fgetsAux, hp, this]

theorem cstring_append (P t : List Char) (h : ∀ c ∈ P, c ≠ NUL) :
    cstring (P ++ t) = P ++ cstring t := by
  unfold cstring
  exact List.takeWhile_append_of_pos (fun c hc => by simpa using h c hc)

theorem cstring_isPrefix_buf (t : List Char) : cstring t <+: t :=
  List.takeWhile_prefix _

theorem cstring_eq_self (P : List Char) (h : ∀ c ∈ P, c ≠ NUL) : cstring P = P := by
  have := cstring_append P [] h
  simpa [cstring] using this

theorem isspace_NUL : isspace NUL = false := by decide

theorem isdigit_NUL : isdigit NUL = false := by decide

theorem isdigit_NL : isdigit NL = false := by decide

theorem fieldsText_clean (fs : List (List Char × Nat)) (hws : ∀ f ∈ fs, isBlankRun f.1) :
    ∀ c ∈ fieldsText fs, c ≠ NL ∧ c ≠ NUL := by
  induction fs with
  | nil => intro c hc; simp [fieldsText] at hc
  | cons f fs ih =>
    obtain ⟨ws, a⟩ := f
    intro c hc
    simp only [fieldsText, List.mem_append] at hc
    rcases hc with (hc | hc) | hc
    · have hb := (hws (ws, a) (by simp)).2 c hc
      refine ⟨hb.2, ?_⟩
      intro h
      rw [h, isspace_NUL] at hb
      exact absurd hb.1 (by simp)
    · have hd := isdigit_of_mem_toDigits a c hc
      constructor
      · intro h; rw [h, isdigit_NL] at hd; cases hd
      · intro h; rw [h, isdigit_NUL] at hd; cases hd
    · exact ih (fun f hf => hws f (by simp [hf])) c hc

theorem token_clean (label : List Char) (hl : isToken label) :
    ∀ c ∈ label, c ≠ NL ∧ c ≠ NUL := by
  intro c hc
  have h := hl.2 c hc
  refine ⟨?_, h.2⟩
  intro hnl
  rw [hnl] at h
  exact absurd h.1 (by decide)

/-- The first `fgets` of a stream that starts with a line prefix `P` of at most
255 bytes: the C string in the buffer is `P` followed by text that is a prefix of
what follows `P` in the stream. -/
theorem first_buffer (P tail : List Char) (hne : P ≠ [])
    (hclean : ∀ c ∈ P, c ≠ NL ∧ c ≠ NUL) (hlen : P.length ≤ 255) :
    ∃ u rest, u <+: tail ∧ fgets 256 (P ++ tail) = some (P ++ u, rest) ∧
      cstring (P ++ u) = P ++ cstring u := by
  refine ⟨(fgetsAux (255 - P.length) tail).1, (fgetsAux 255 (P ++ tail)).2,
    fgetsAux_fst_isPrefix_stream _ _, ?_, cstring_append _ _ (fun c hc => (hclean c hc).2)⟩
  rw [fgets_of_ne_nil 255 _ (by simp [hne])]
  rw [← fgetsAux_line_start P 255 tail (fun c hc => (hclean c hc).1) hlen]

theorem sscanf_cpu_fields (label : List Char) (fs : List (List Char × Nat)) (u : List Char)
    (tmp : cpu_time) (hl : isToken label) (h7 : fs.length = 7)
    (hws : ∀ f ∈ fs, isBlankRun f.1) (hval : ∀ f ∈ fs, f.2 < 2 ^ 32) (hu : stops u) :
    sscanf_cpu (label ++ (fieldsText fs ++ u)) tmp =
      { user := ((fs.map (fun f => f.2)).get? 0).getD tmp.user
        nice := ((fs.map (fun f => f.2)).get? 1).getD tmp.nice
        system := ((fs.map (fun f => f.2)).get? 2).getD tmp.system
        idle := ((fs.map (fun f => f.2)).get? 3).getD tmp.idle
        iowait := ((fs.map (fun f => f.2)).get? 4).getD tmp.iowait
        irq := ((fs.map (fun f => f.2)).get? 5).getD tmp.irq
        softirq := ((fs.map (fun f => f.2)).get? 6).getD tmp.softirq } := by
  have hhead : ∀ c, (fieldsText fs ++ u).head? = some c → isspace c = true := by
    cases fs with
    | nil => simp at h7
    | cons f fs =>
      obtain ⟨ws, a⟩ := f
      have hb : isBlankRun ws := hws (ws, a) (by simp)
      cases ws with
      | nil => exact absurd rfl hb.1
      | cons w ws =>
        intro c hc
        simp [fieldsText] at hc
        subst hc
        exact (hb.2 w (by simp)).1
  have hscan := scanUnsigned_fieldsText fs u hws hval hu
  rw [h7] at hscan
  simp only [sscanf_cpu, conv_s_token label _ hl hhead, hscan]

/-! ## The scanning loop -/

theorem strstr_iff (needle : List Char) : ∀ hay : List Char,
    strstr hay needle = true ↔ needle <:+: hay := by
  intro hay
  induction hay with
  | nil => simp [strstr, List.isEmpty_iff]
  | cons c hay ih =>
    simp only [strstr, Bool.or_eq_true, List.isPrefixOf_iff_prefix, ih, List.infix_cons_iff]

theorem fgetsAux_rest_lt (n : Nat) (c : Char) (s : List Char) :
    (fgetsAux (n + 1) (c :: s)).2.length < (c :: s).length := by
  have h := congrArg List.length (fgetsAux_append (n + 1) (c :: s))
  have h1 : 0 < (fgetsAux (n + 1) (c :: s)).1.length := by
    by_cases hc : c = NL <;> simp [fgetsAux, hc]
  rw [List.length_append] at h
  omega

theorem fgetsAux_255_lt (c : Char) (s : List Char) :
    (fgetsAux 255 (c :: s)).2.length < (c :: s).length :=
  fgetsAux_rest_lt 254 c s

theorem scanLoop_cons (w : List Char) (g : Int) (fuel : Nat) (c : Char) (s : List Char) :
    scanLoop w g (fuel + 1) (c :: s) =
      if strstr (cstring (fgetsAux 255 (c :: s)).1) w then
        (sscanf_s_d (cstring (fgetsAux 255 (c :: s)).1) g).map (fun v => ⟨v, []⟩)
      else scanLoop w g fuel (fgetsAux 255 (c :: s)).2 := by
  rfl

theorem scanLoop_nil (w : List Char) (g : Int) (fuel : Nat) :
    scanLoop w g (fuel + 1) [] = some ⟨0, [notFoundMessage]⟩ := by
  rfl

/-- The result of the loop does not depend on the iteration bound once the bound
exceeds the length of the stream. -/
theorem scanLoop_fuel (w : List Char) (g : Int) : ∀ (fuel : Nat) (s : List Char) (fuel' : Nat),
    s.length < fuel → s.length < fuel' → scanLoop w g fuel s = scanLoop w g fuel' s := by
  intro fuel
  induction fuel with
  | zero => intro s fuel' h; omega
  | succ f ih =>
    intro s fuel' h h'
    cases fuel' with
    | zero => omega
    | succ f' =>
      cases s with
      | nil => rw [scanLoop_nil, scanLoop_nil]
      | cons c s =>
        rw [scanLoop_cons, scanLoop_cons]
        have hlt := fgetsAux_255_lt c s
        rw [ih _ f' (by omega) (by omega)]

theorem firstToken_isInfix_text (s : List Char) : firstToken s <:+: s :=
  ( List.takeWhile_prefix _).isInfix.trans ( List.dropWhile_suffix _).isInfix

theorem firstToken_not_space (s : List Char) : ∀ c ∈ firstToken s, isspace c = false := by
  intro c hc
  have := List.mem_takeWhile_imp hc
  simpa using this

theorem conv_s_label (s label rest : List Char) (h : conv_s s = some (label, rest)) :
    label = firstToken s := by
  unfold conv_s at h
  unfold firstToken
  cases hs : skipSpace s with
  | nil => rw [hs] at h; cases h
  | cons c t =>
    rw [hs] at h
    simp only [Option.some.injEq, Prod.mk.injEq] at h
    exact h.1.symm

/-- A first token of at most 31 bytes fits `label[32]`: the scan has a result. -/
theorem sscanf_s_d_isSome (str : List Char) (g : Int) (h : (firstToken str).length ≤ 31) :
    ∃ v, sscanf_s_d str g = some v := by
  unfold sscanf_s_d
  cases hc : conv_s str with
  | none => exact ⟨g, rfl⟩
  | some p =>
    obtain ⟨label, rest⟩ := p
    have hl : label = firstToken str := conv_s_label str label rest hc
    have hfit : ¬ 32 ≤ label.length := by rw [hl]; omega
    simp only [hfit, if_false]
    cases conv_d (skipSpace rest) with
    | none => exact ⟨g, rfl⟩
    | some q => exact ⟨q.1, rfl⟩

/-- With a bound above the length of the stream the loop returns a result,
provided the stream has no run of more than 31 bytes without white space (no
token can overflow `label`). -/
theorem scanLoop_isSome (w : List Char) (g : Int) : ∀ (fuel : Nat) (s : List Char),
    s.length < fuel →
    (∀ t, t <:+: s → (∀ c ∈ t, isspace c = false) → t.length ≤ 31) →
    (scanLoop w g fuel s).isSome = true := by
  intro fuel
  induction fuel with
  | zero => intro s h; omega
  | succ f ih =>
    intro s h hfit
    cases s with
    | nil => rfl
    | cons c s =>
      rw [scanLoop_cons]
      have hbuf : cstring (fgetsAux 255 (c :: s)).1 <:+: c :: s :=
        ((cstring_isPrefix_buf _).trans (fgetsAux_fst_isPrefix_stream _ _)).isInfix
      have hsuf : (fgetsAux 255 (c :: s)).2 <:+: c :: s :=
        (fgetsAux_snd_isSuffix_stream _ _).isInfix
      split
      · have htok := hfit _ ((firstToken_isInfix_text _).trans hbuf) (firstToken_not_space _)
        obtain ⟨v, hv⟩ := sscanf_s_d_isSome _ g htok
        rw [hv]
        rfl
      · exact ih _ (by have := fgetsAux_255_lt c s; omega)
          (fun t ht hsp => hfit t (ht.trans hsuf) hsp)

/-- A stream without any occurrence of the word is scanned to its end. -/
theorem scanLoop_not_found (w : List Char) (g : Int) : ∀ (fuel : Nat) (s : List Char),
    s.length < fuel → ¬ w <:+: s → scanLoop w g fuel s = some ⟨0, [notFoundMessage]⟩ := by
  intro fuel
  induction fuel with
  | zero => intro s h; omega
  | succ f ih =>
    intro s h hno
    cases s with
    | nil => rfl
    | cons c s =>
      rw [scanLoop_cons]
      have hpre : cstring (fgetsAux 255 (c :: s)).1 <:+: c :: s :=
        ((cstring_isPrefix_buf _).trans (fgetsAux_fst_isPrefix_stream _ _)).isInfix
      have hsuf : (fgetsAux 255 (c :: s)).2 <:+: c :: s := (fgetsAux_snd_isSuffix_stream _ _).isInfix
      have hstr : strstr (cstring (fgetsAux 255 (c :: s)).1) w = false := by
        cases hs : strstr (cstring (fgetsAux 255 (c :: s)).1) w
        · rfl
        · exact absurd (((strstr_iff w _).1 hs).trans hpre) hno
      rw [hstr]
      simp only [Bool.false_eq_true, if_false]
      exact ih _ (by have := fgetsAux_255_lt c s; omega)
        (fun hw => hno (hw.trans hsuf))

theorem fgetsAux_complete (pre : List Char) : pre ≠ [] → pre.getLast? = some NL →
    ∀ (n : Nat) (rest : List Char),
      fgetsAux n (pre ++ rest) = ((fgetsAux n pre).1, (fgetsAux n pre).2 ++ rest) := by
  induction pre with
  | nil => intro h; exact absurd rfl h
  | cons c pre ih =>
    intro _ hlast n rest
    cases n with
    | zero => simp [fgetsAux]
    | succ n =>
      by_cases hc : c = NL
      · simp [fgetsAux, hc]
      · cases pre with
        | nil =>
          simp at hlast
          exact absurd hlast hc
        | cons d pre =>
          rw [List.getLast?_cons_cons] at hlast
          have := ih (by simp) hlast n rest
          simp only [List.cons_append] at this
          simp [fgetsAux, hc, this]

theorem completeLines_of_isSuffix_complete {pre pre' : List Char} (h : pre' <:+ pre)
    (hc : completeLines pre) : completeLines pre' := by
  obtain ⟨a, rfl⟩ := h
  unfold completeLines at *
  cases hl : pre'.getLast? with
  | none => exact Or.inl rfl
  | some x =>
    right
    rw [List.getLast?_append, hl] at hc
    simpa using hc

/-- Complete lines without any occurrence of the word are skipped. -/
theorem scanLoop_skip (w : List Char) (g : Int) : ∀ (fuel : Nat) (pre rest : List Char),
    (pre ++ rest).length < fuel → completeLines pre → ¬ w <:+: pre →
    scanLoop w g fuel (pre ++ rest) = scanLoop w g (rest.length + 1) rest := by
  intro fuel
  induction fuel with
  | zero => intro pre rest h; omega
  | succ f ih =>
    intro pre rest h hc hno
    cases pre with
    | nil => exact scanLoop_fuel w g _ _ _ (by simpa using h) (Nat.lt_succ_self _)
    | cons c pre =>
      have hlast : (c :: pre).getLast? = some NL := by
        rcases hc with hc | hc
        · simp at hc
        · exact hc
      rw [List.cons_append, scanLoop_cons, ← List.cons_append,
        fgetsAux_complete (c :: pre) (by simp) hlast 255 rest]
      have hpre : cstring (fgetsAux 255 (c :: pre)).1 <:+: c :: pre :=
        ((cstring_isPrefix_buf _).trans (fgetsAux_fst_isPrefix_stream _ _)).isInfix
      have hsuf : (fgetsAux 255 (c :: pre)).2 <:+ c :: pre := fgetsAux_snd_isSuffix_stream _ _
      have hstr : strstr (cstring (fgetsAux 255 (c :: pre)).1) w = false := by
        cases hs : strstr (cstring (fgetsAux 255 (c :: pre)).1) w
        · rfl
        · exact absurd (((strstr_iff w _).1 hs).trans hpre) hno
      simp only [hstr, Bool.false_eq_true, if_false]
      have hlt := fgetsAux_255_lt c pre
      refine ih _ rest ?_ (completeLines_of_isSuffix_complete hsuf hc) (fun hw => hno (hw.trans hsuf.isInfix))
      simp only [List.length_append, List.length_cons] at h hlt ⊢
      omega

theorem fgetsAux_line (line : List Char) : ∀ (n : Nat) (post : List Char),
    (∀ c ∈ line, c ≠ NL) → line.length < n →
    fgetsAux n (line ++ NL :: post) = (line ++ [NL], post) := by
  induction line with
  | nil =>
    intro n post _ hn
    cases n with
    | zero => omega
    | succ n => simp [fgetsAux]
  | cons c line ih =>
    intro n post hnl hn
    cases n with
    | zero => omega
    | succ n =>
      have hc : c ≠ NL := hnl c (by simp)
      have := ih n post (fun c hc => hnl c (by simp [hc])) (by simpa using hn)
      simp [fgetsAux, hc, this]

theorem infix_of_infix_snoc (w l : List Char) (c : Char) (hc : c ∉ w)
    (h : w <:+: l ++ [c]) : w <:+: l := by
  obtain ⟨a, b, hab⟩ := h
  rcases List.eq_nil_or_concat b with hb | ⟨b', x, hb⟩
  · subst hb
    rcases List.eq_nil_or_concat w with hw | ⟨w', y, hw⟩
    · subst hw; exact ⟨[], l, by simp⟩
    · subst hw
      simp only [List.concat_eq_append, List.append_nil, ← List.append_assoc] at hab
      have := List.append_inj' hab rfl
      have hy : y = c := by simpa using this.2
      exact absurd (by simp [hy]) hc
  · subst hb
    simp only [List.concat_eq_append, ← List.append_assoc] at hab
    have := List.append_inj' hab rfl
    exact ⟨a, b', this.1⟩

/-- One line of at most 254 bytes after complete lines without the word: it is
matched exactly when the word occurs in it; otherwise the scan goes on behind
it. -/
theorem scanLoop_line (w : List Char) (g : Int) (pre line post : List Char) (fuel : Nat)
    (hw : NL ∉ w) (hpre : completeLines pre) (hno : ¬ w <:+: pre)
    (hline : ∀ c ∈ line, c ≠ NL ∧ c ≠ NUL) (hlen : line.length ≤ 254)
    (hf : (pre ++ line ++ NL :: post).length < fuel) :
    scanLoop w g fuel (pre ++ line ++ NL :: post) =
      if w <:+: line then (sscanf_s_d (line ++ [NL]) g).map (fun v => ⟨v, []⟩)
      else scanLoop w g (post.length + 1) post := by
  rw [List.append_assoc, scanLoop_skip w g fuel pre _ (by simpa using hf) hpre hno]
  have hne : line ++ NL :: post ≠ [] := by simp
  obtain ⟨c, s, hcs⟩ := List.exists_cons_of_ne_nil hne
  have hlen1 : (line ++ NL :: post).length = s.length + 1 := by rw [hcs]; rfl
  rw [hlen1, hcs, scanLoop_cons, ← hcs,
    fgetsAux_line line 255 post (fun c hc => (hline c hc).1) (by omega)]
  have hcstr : cstring (line ++ [NL]) = line ++ [NL] := by
    apply cstring_eq_self
    intro c hc
    rcases List.mem_append.1 hc with hc | hc
    · exact (hline c hc).2
    · simp at hc; subst hc; decide
  simp only [hcstr]
  by_cases hin : w <:+: line
  · have : strstr (line ++ [NL]) w = true :=
      (strstr_iff w _).2 (hin.trans (List.prefix_append _ _).isInfix)
    simp [this, hin]
  · have : strstr (line ++ [NL]) w = false := by
      cases hs : strstr (line ++ [NL]) w
      · rfl
      · exact absurd (infix_of_infix_snoc w line NL hw ((strstr_iff w _).1 hs)) hin
    simp only [this, hin, Bool.false_eq_true, if_false]
    have hsl : s.length = line.length + post.length := by
      simp only [List.length_append, List.length_cons] at hlen1; omega
    exact scanLoop_fuel w g _ _ _ (by omega) (Nat.lt_succ_self _)

theorem takeWhile_not_space_snoc_NL (s : List Char) :
    (s ++ [NL]).takeWhile (fun x => !isspace x) = s.takeWhile (fun x => !isspace x) := by
  induction s with
  | nil => decide
  | cons c s ih =>
    cases hc : isspace c <;> simp [List.takeWhile_cons, hc, ih]

/-- The newline that ends a buffer does not belong to its first token. -/
theorem firstToken_snoc_NL (s : List Char) : firstToken (s ++ [NL]) = firstToken s := by
  unfold firstToken skipSpace
  induction s with
  | nil => decide
  | cons c s ih =>
    cases hc : isspace c
    · simp only [List.cons_append, List.dropWhile_cons, hc, Bool.false_eq_true, if_false]
      have := takeWhile_not_space_snoc_NL (c :: s)
      simpa using this
    · simp only [List.cons_append, List.dropWhile_cons, hc, if_true]
      exact ih

/-- Both counter reads return a result on every source that has no run of more
than 31 bytes without white space: the iteration bound of the loop is never
reached, and no token overflows `label`. -/
theorem counter_reads_return (stat : Option (List Char)) (g : Int)
    (hfit : ∀ s, stat = some s →
      ∀ t, t <:+: s → (∀ c ∈ t, isspace c = false) → t.length ≤ 31) :
    (processesSinceBoot stat g).isSome = true ∧
    (contextSwitchesSinceBoot stat g).isSome = true := by
  cases stat with
  | none => exact ⟨rfl, rfl⟩
  | some stream =>
    exact ⟨scanLoop_isSome _ g _ stream (Nat.lt_succ_self _) (hfit stream rfl),
      scanLoop_isSome _ g _ stream (Nat.lt_succ_self _) (hfit stream rfl)⟩

/-! ## C3, C4: `getCpuTimes` -/

/-- C3 (as amended). For every openable source whose first line is a label token
followed by seven blank-separated unsigned decimal integers `a1 .. a7`, each
below `2^32`, and whose first line up to the end of the seventh integer is at
most 255 bytes long (the capacity of `ch_buf`), `getCpuTimes` succeeds and
returns exactly the record `a1 .. a7`, whatever follows the seventh integer
(the rest of the line and all later lines). -/
theorem C3_getCpuTimes_first_line (label w1 w2 w3 w4 w5 w6 w7 tail : List Char)
    (a1 a2 a3 a4 a5 a6 a7 : Nat) (cpu : cpu_time) (ch_buf : List Char) (tmpTimes : cpu_time)
    (hl : isToken label)
    (hw : ∀ w ∈ [w1, w2, w3, w4, w5, w6, w7], isBlankRun w)
    (ha : ∀ a ∈ [a1, a2, a3, a4, a5, a6, a7], a < 2 ^ 32)
    (htail : stops tail)
    (hlen : (label ++ fieldsText [(w1, a1), (w2, a2), (w3, a3), (w4, a4), (w5, a5),
      (w6, a6), (w7, a7)]).length ≤ 255) :
    getCpuTimes (some (label ++ fieldsText [(w1, a1), (w2, a2), (w3, a3), (w4, a4),
        (w5, a5), (w6, a6), (w7, a7)] ++ tail)) cpu ch_buf tmpTimes =
      ⟨(true, { user := a1, nice := a2, system := a3, idle := a4, iowait := a5,
                irq := a6, softirq := a7 }), []⟩ := by
  have hws : ∀ f ∈ [(w1, a1), (w2, a2), (w3, a3), (w4, a4), (w5, a5), (w6, a6), (w7, a7)],
      isBlankRun f.1 := by
    intro f hf
    simp only [List.mem_cons, List.mem_singleton, List.not_mem_nil, or_false] at hf
    rcases hf with h | h | h | h | h | h | h <;> subst h <;> exact hw _ (by simp)
  have hval : ∀ f ∈ [(w1, a1), (w2, a2), (w3, a3), (w4, a4), (w5, a5), (w6, a6), (w7, a7)],
      f.2 < 2 ^ 32 := by
    intro f hf
    simp only [List.mem_cons, List.mem_singleton, List.not_mem_nil, or_false] at hf
    rcases hf with h | h | h | h | h | h | h <;> subst h <;> exact ha _ (by simp)
  have hclean : ∀ c ∈ label ++ fieldsText [(w1, a1), (w2, a2), (w3, a3), (w4, a4),
      (w5, a5), (w6, a6), (w7, a7)], c ≠ NL ∧ c ≠ NUL := by
    intro c hc
    rcases List.mem_append.1 hc with hc | hc
    · exact token_clean label hl c hc
    · exact fieldsText_clean _ hws c hc
  obtain ⟨u, rest, hu, hfg, hcs⟩ := first_buffer _ tail (by simp [hl.1]) hclean hlen
  have hstop : stops (cstring u) := stops_of_isPrefix_stops ((cstring_isPrefix_buf u).trans hu) htail
  have hscan := sscanf_cpu_fields label
    [(w1, a1), (w2, a2), (w3, a3), (w4, a4), (w5, a5), (w6, a6), (w7, a7)]
    (cstring u) tmpTimes hl rfl hws hval hstop
  simp only [List.append_assoc] at hfg hcs
  simp only [getCpuTimes, List.append_assoc, hfg, hcs, hscan]
  rfl

/-- Witness of C3: the first line `cpu  10 20 30 40 50 60 70` followed by a
per-CPU line gives the record 10, 20, 30, 40, 50, 60, 70. -/
theorem C3_getCpuTimes_first_line_witness :
    getCpuTimes (some ("cpu".toList ++ fieldsText [("  ".toList, 10), (" ".toList, 20),
        (" ".toList, 30), (" ".toList, 40), (" ".toList, 50), (" ".toList, 60),
        (" ".toList, 70)] ++ "\ncpu0 1 2 3 4 5 6 7\n".toList))
      ⟨0, 0, 0, 0, 0, 0, 0⟩ [] ⟨1, 2, 3, 4, 5, 6, 7⟩ =
      ⟨(true, { user := 10, nice := 20, system := 30, idle := 40, iowait := 50,
                irq := 60, softirq := 70 }), []⟩ ∧
    "cpu".toList ++ fieldsText [("  ".toList, 10), (" ".toList, 20),
        (" ".toList, 30), (" ".toList, 40), (" ".toList, 50), (" ".toList, 60),
        (" ".toList, 70)] = "cpu  10 20 30 40 50 60 70".toList :=
  ⟨C3_getCpuTimes_first_line "cpu".toList "  ".toList " ".toList " ".toList " ".toList
    " ".toList " ".toList " ".toList "\ncpu0 1 2 3 4 5 6 7\n".toList 10 20 30 40 50 60 70
    ⟨0, 0, 0, 0, 0, 0, 0⟩ [] ⟨1, 2, 3, 4, 5, 6, 7⟩
    (by decide) (by decide) (by decide) (by decide) (by decide), by decide⟩

/-- Counterexample to C3 as stated: the first line is `cpu`, 233 spaces and
`10 20 30 40 50 60 70`; the buffer holds its first 255 bytes, which end inside
the seventh integer, and `softirq` comes back as 7 instead of 70. -/
theorem C3_counterexample_long_first_line :
    getCpuTimes (some ("cpu".toList ++ List.replicate 233 (Char.ofNat 32) ++
        "10 20 30 40 50 60 70\n".toList)) ⟨0, 0, 0, 0, 0, 0, 0⟩ [] ⟨0, 0, 0, 0, 0, 0, 0⟩ =
      ⟨(true, { user := 10, nice := 20, system := 30, idle := 40, iowait := 50,
                irq := 60, softirq := 7 }), []⟩ := by
  rfl

/-- C4 (as amended). For every openable source, whatever its first line (also
with fewer than seven numeric fields, also for an empty source), `getCpuTimes`
reports success and writes no diagnostic: the result of `sscanf` is not
checked, and the program has no malformed-record outcome. -/
theorem C4_getCpuTimes_always_succeeds (stream : List Char) (cpu : cpu_time)
    (ch_buf : List Char) (tmpTimes : cpu_time) :
    (getCpuTimes (some stream) cpu ch_buf tmpTimes).value.1 = true ∧
    (getCpuTimes (some stream) cpu ch_buf tmpTimes).stderr = [] :=
  ⟨rfl, rfl⟩

/-- Counterexample to C4 as stated: on the first line `cpu 10 20` (two numeric
fields) and on the empty source `getCpuTimes` returns `true` and hands back a
record; the fields that were not converted keep the prior content of
`tmpTimes`. -/
theorem C4_counterexample_short_line :
    getCpuTimes (some "cpu 10 20\n".toList) ⟨0, 0, 0, 0, 0, 0, 0⟩ [] ⟨1, 2, 3, 4, 5, 6, 7⟩ =
      ⟨(true, { user := 10, nice := 20, system := 3, idle := 4, iowait := 5,
                irq := 6, softirq := 7 }), []⟩ ∧
    getCpuTimes (some []) ⟨0, 0, 0, 0, 0, 0, 0⟩ [] ⟨1, 2, 3, 4, 5, 6, 7⟩ =
      ⟨(true, { user := 1, nice := 2, system := 3, idle := 4, iowait := 5,
                irq := 6, softirq := 7 }), []⟩ := by
  constructor <;> rfl

/-! ## C1, C2, C8, C9: the counter reads -/

theorem NL_not_mem_processes : NL ∉ "processes".toList := by decide

theorem NL_not_mem_ctxt : NL ∉ "ctxt".toList := by decide

/-- C1 (as amended). `processesSinceBoot` matches by substring search, not by
token comparison. After complete lines in which `processes` does not occur, a
line of at most 254 bytes is matched exactly when `processes` occurs anywhere
in it, whether or not its first token equals `processes`. When it is matched
and its first token has at most 31 bytes (the capacity of `label[32]`), the
count scanned from that line with `"%s %d"` is returned; when it is not
matched, the scan goes on with the lines behind it. -/
theorem C1_processes_matched_by_substring (pre line post : List Char) (proc_count : Int)
    (hpre : completeLines pre) (hno : ¬ "processes".toList <:+: pre)
    (hline : ∀ c ∈ line, c ≠ NL ∧ c ≠ NUL) (hlen : line.length ≤ 254) :
    ("processes".toList <:+: line → (firstToken line).length ≤ 31 →
      ∃ v, sscanf_s_d (line ++ [NL]) proc_count = some v ∧
        processesSinceBoot (some (pre ++ line ++ NL :: post)) proc_count = some ⟨v, []⟩) ∧
    (¬ "processes".toList <:+: line →
      processesSinceBoot (some (pre ++ line ++ NL :: post)) proc_count =
        processesSinceBoot (some post) proc_count) := by
  have h := scanLoop_line "processes".toList proc_count pre line post _ NL_not_mem_processes
    hpre hno hline hlen (Nat.lt_succ_self (pre ++ line ++ NL :: post).length)
  constructor
  · intro hin htok
    obtain ⟨v, hv⟩ := sscanf_s_d_isSome (line ++ [NL]) proc_count
      (by rw [firstToken_snoc_NL]; exact htok)
    refine ⟨v, hv, ?_⟩
    rw [if_pos hin, hv] at h
    exact h
  · intro hin
    rw [if_neg hin] at h
    exact h

/-- Witness of C1: after the line `cpu 1 2`, the line `processes_extra 99` is
matched and 99 is returned; the line `procs_running 3` is skipped. -/
theorem C1_processes_matched_by_substring_witness :
    (∃ v, sscanf_s_d ("processes_extra 99".toList ++ [NL]) 7 = some v ∧
      processesSinceBoot
        (some ("cpu 1 2\n".toList ++ "processes_extra 99".toList ++ NL :: "ctxt 5\n".toList))
        7 = some ⟨v, []⟩) ∧
    sscanf_s_d ("processes_extra 99".toList ++ [NL]) 7 = some 99 ∧
    processesSinceBoot
      (some ("cpu 1 2\n".toList ++ "procs_running 3".toList ++ NL :: "ctxt 5\n".toList)) 7 =
      processesSinceBoot (some "ctxt 5\n".toList) 7 :=
  ⟨(C1_processes_matched_by_substring "cpu 1 2\n".toList "processes_extra 99".toList
      "ctxt 5\n".toList 7 (by decide) (by decide) (by decide) (by decide)).1
      (by decide) (by decide),
   by decide,
   (C1_processes_matched_by_substring "cpu 1 2\n".toList "procs_running 3".toList
      "ctxt 5\n".toList 7 (by decide) (by decide) (by decide) (by decide)).2 (by decide)⟩

/-- Counterexample to C1 as stated: a source with the line `processes_extra 99`
and no line whose label token is `processes` makes `processesSinceBoot` return
99. -/
theorem C1_counterexample_processes_extra :
    processesSinceBoot
      (some "cpu  10 20 30 40 50 60 70\nctxt 5\nprocesses_extra 99\n".toList) 7 =
      some ⟨99, []⟩ := by
  decide

/-- C2 (as amended). For every openable source in which `ctxt` does not occur,
`contextSwitchesSinceBoot` writes the diagnostic "Unable to parse /proc/stat. No
process count was found." and returns 0, the same return value as for a source
whose matched line is `ctxt 0`, which returns 0 without a diagnostic; the same
holds for `processesSinceBoot` and `processes`. -/
theorem C2_not_found_returns_zero (stream : List Char) (count₀ : Int) :
    (¬ "ctxt".toList <:+: stream →
      contextSwitchesSinceBoot (some stream) count₀ = some ⟨0, [notFoundMessage]⟩ ∧
      contextSwitchesSinceBoot (some ("ctxt 0".toList ++ NL :: stream)) count₀ =
        some ⟨0, []⟩) ∧
    (¬ "processes".toList <:+: stream →
      processesSinceBoot (some stream) count₀ = some ⟨0, [notFoundMessage]⟩ ∧
      processesSinceBoot (some ("processes 0".toList ++ NL :: stream)) count₀ =
        some ⟨0, []⟩) := by
  constructor
  · intro h
    refine ⟨scanLoop_not_found _ count₀ _ stream (Nat.lt_succ_self _) h, ?_⟩
    have := scanLoop_line "ctxt".toList count₀ [] "ctxt 0".toList stream
      (([] ++ "ctxt 0".toList ++ NL :: stream).length + 1) NL_not_mem_ctxt
      (by decide) (by decide) (by decide) (by decide) (Nat.lt_succ_self _)
    rw [if_pos (by decide)] at this
    exact this
  · intro h
    refine ⟨scanLoop_not_found _ count₀ _ stream (Nat.lt_succ_self _) h, ?_⟩
    have := scanLoop_line "processes".toList count₀ [] "processes 0".toList stream
      (([] ++ "processes 0".toList ++ NL :: stream).length + 1) NL_not_mem_processes
      (by decide) (by decide) (by decide) (by decide) (Nat.lt_succ_self _)
    rw [if_pos (by decide)] at this
    exact this

/-- Witness of C2 on the source `cpu 1 2`. -/
theorem C2_not_found_returns_zero_witness :
    (contextSwitchesSinceBoot (some "cpu 1 2\n".toList) 7 = some ⟨0, [notFoundMessage]⟩ ∧
      contextSwitchesSinceBoot (some ("ctxt 0".toList ++ NL :: "cpu 1 2\n".toList)) 7 =
        some ⟨0, []⟩) ∧
    (processesSinceBoot (some "cpu 1 2\n".toList) 7 = some ⟨0, [notFoundMessage]⟩ ∧
      processesSinceBoot (some ("processes 0".toList ++ NL :: "cpu 1 2\n".toList)) 7 =
        some ⟨0, []⟩) :=
  ⟨(C2_not_found_returns_zero "cpu 1 2\n".toList 7).1 (by decide),
   (C2_not_found_returns_zero "cpu 1 2\n".toList 7).2 (by decide)⟩

/-- Counterexample to C2 as stated: a source without a `ctxt` line and a source
with the line `ctxt 0` give the same return value 0, and likewise for
`processes`. -/
theorem C2_counterexample_default_zero :
    returned (contextSwitchesSinceBoot (some "cpu 1 2\nprocesses 42\n".toList) 7) = some 0 ∧
    returned (contextSwitchesSinceBoot (some "cpu 1 2\nctxt 0\nprocesses 42\n".toList) 7) =
      some 0 ∧
    returned (processesSinceBoot (some "cpu 1 2\nctxt 5\n".toList) 7) = some 0 ∧
    returned (processesSinceBoot (some "cpu 1 2\nctxt 5\nprocesses 0\n".toList) 7) =
      some 0 := by
  decide

/-- When `/proc/stat` cannot be opened, `getCpuTimes` returns `false` and
leaves the caller's record alone, and both counter reads return -1, each with
the diagnostic "Unable to open /proc/stat."; the return value -1 differs from
the return value of the same read on a source without its word (0). -/
theorem open_failure_results (cpu : cpu_time) (ch_buf : List Char) (tmpTimes : cpu_time)
    (count₀ g : Int) (stream : List Char) :
    getCpuTimes none cpu ch_buf tmpTimes = ⟨(false, cpu), [openFailedMessage]⟩ ∧
    contextSwitchesSinceBoot none count₀ = some ⟨-1, [openFailedMessage]⟩ ∧
    processesSinceBoot none count₀ = some ⟨-1, [openFailedMessage]⟩ ∧
    (¬ "ctxt".toList <:+: stream →
      returned (contextSwitchesSinceBoot none count₀) ≠
        returned (contextSwitchesSinceBoot (some stream) g)) ∧
    (¬ "processes".toList <:+: stream →
      returned (processesSinceBoot none count₀) ≠
        returned (processesSinceBoot (some stream) g)) := by
  refine ⟨rfl, rfl, rfl, ?_, ?_⟩
  · intro h
    have : contextSwitchesSinceBoot (some stream) g = some ⟨0, [notFoundMessage]⟩ :=
      scanLoop_not_found _ g _ stream (Nat.lt_succ_self _) h
    rw [this]
    simp [returned, contextSwitchesSinceBoot]
  · intro h
    have : processesSinceBoot (some stream) g = some ⟨0, [notFoundMessage]⟩ :=
      scanLoop_not_found _ g _ stream (Nat.lt_succ_self _) h
    rw [this]
    simp [returned, processesSinceBoot]

/-- C8 at the failing input: the lines `ctxt 4294967295` and
`processes 4294967295` are stored through an `int`, and both counter reads
return -1, the value they return when `/proc/stat` cannot be opened; only the
diagnostic on `stderr` tells the two apart. -/
theorem C8_failure_value_collides :
    contextSwitchesSinceBoot (some "cpu 1 2\nctxt 4294967295\n".toList) 0 =
      some ⟨-1, []⟩ ∧
    contextSwitchesSinceBoot none 0 = some ⟨-1, [openFailedMessage]⟩ ∧
    returned (contextSwitchesSinceBoot (some "cpu 1 2\nctxt 4294967295\n".toList) 0) =
      returned (contextSwitchesSinceBoot none 0) ∧
    processesSinceBoot (some "cpu 1 2\nprocesses 4294967295\n".toList) 0 =
      some ⟨-1, []⟩ ∧
    processesSinceBoot none 0 = some ⟨-1, [openFailedMessage]⟩ ∧
    returned (processesSinceBoot (some "cpu 1 2\nprocesses 4294967295\n".toList) 0) =
      returned (processesSinceBoot none 0) := by
  decide

/-- C9 at the failing input: the line `ctxt 2147483648` is stored through an
`int`, and `contextSwitchesSinceBoot` returns -2147483648; `ctxt 4294967296`
comes back as 0. -/
theorem C9_contextSwitches_truncated :
    contextSwitchesSinceBoot (some "cpu 1 2\nctxt 2147483648\n".toList) 0 =
      some ⟨-2147483648, []⟩ ∧
    contextSwitchesSinceBoot (some "cpu 1 2\nctxt 4294967296\n".toList) 7 =
      some ⟨0, []⟩ := by
  decide

/-! ## Counts that fit an `int` are read exactly -/

theorem sscanf_s_d_count (label ws : List Char) (n : Nat) (g : Int)
    (hl : isToken label) (hcap : label.length ≤ 31) (hws : isBlankRun ws)
    (hn : n < 2 ^ 31) :
    sscanf_s_d (label ++ ws ++ Nat.toDigits 10 n ++ [NL]) g = some (n : Int) := by
  have hhead : ∀ c, (ws ++ (Nat.toDigits 10 n ++ [NL])).head? = some c → isspace c = true := by
    cases ws with
    | nil => exact absurd rfl hws.1
    | cons w ws =>
      intro c hc
      simp at hc
      subst hc
      exact (hws.2 w (by simp)).1
  have hstop : stops [NL] := by
    intro c hc
    simp at hc
    subst hc
    decide
  have h1 : skipSpace (ws ++ (Nat.toDigits 10 n ++ [NL])) = Nat.toDigits 10 n ++ [NL] := by
    rw [skipSpace_append ws _ (fun c hc => (hws.2 c hc).1)]
    exact skipSpace_digits _ _ (toDigits_ne_nil n) (isdigit_of_mem_toDigits n)
  have h2 := scanNumber_digits (Nat.toDigits 10 n) [NL] (toDigits_ne_nil n)
    (isdigit_of_mem_toDigits n) hstop
  have h3 : wrapSigned 32 (strtol false n) = n := by
    have hn' : (n : Int) < 2147483648 := by
      have : (2:Nat) ^ 31 = 2147483648 := by norm_num
      omega
    simp only [strtol, wrapSigned]
    norm_num
    omega
  have hfit : ¬ 32 ≤ label.length := by omega
  simp only [List.append_assoc, sscanf_s_d, conv_s_token label _ hl hhead, hfit, if_false,
    h1, conv_d, h2, digitsVal_toDigits, h3]

/-- After complete lines in which `ctxt` does not occur, the line `ctxt n` with
`n < 2^31` makes `contextSwitchesSinceBoot` return `n`. -/
theorem contextSwitchesSinceBoot_reads_count (pre ws post : List Char) (n : Nat) (g : Int)
    (hpre : completeLines pre) (hno : ¬ "ctxt".toList <:+: pre)
    (hws : isBlankRun ws) (hn : n < 2 ^ 31)
    (hlen : ("ctxt".toList ++ ws ++ Nat.toDigits 10 n).length ≤ 254) :
    contextSwitchesSinceBoot
      (some (pre ++ ("ctxt".toList ++ ws ++ Nat.toDigits 10 n) ++ NL :: post)) g =
      some ⟨n, []⟩ := by
  have hclean : ∀ c ∈ "ctxt".toList ++ ws ++ Nat.toDigits 10 n, c ≠ NL ∧ c ≠ NUL := by
    have := fieldsText_clean [(ws, n)] (by simpa using hws)
    intro c hc
    rw [List.append_assoc] at hc
    rcases List.mem_append.1 hc with hc | hc
    · exact token_clean "ctxt".toList (by decide) c hc
    · exact this c (by simpa [fieldsText] using hc)
  have h := scanLoop_line "ctxt".toList g pre _ post _ NL_not_mem_ctxt hpre hno hclean hlen
    (Nat.lt_succ_self _)
  have hin : "ctxt".toList <:+: "ctxt".toList ++ ws ++ Nat.toDigits 10 n :=
    ⟨[], ws ++ Nat.toDigits 10 n, by simp⟩
  rw [if_pos hin, sscanf_s_d_count _ ws n g (by decide) (by decide) hws hn] at h
  exact h

/-! ## C5, C6, C7: the memory functions -/

theorem s64_of_lt (x : Int) (h0 : 0 ≤ x) (h : x < 2 ^ 63) : s64 x = x := by
  simp only [s64, wrapSigned]
  norm_num at h ⊢
  omega

theorem u64_of_lt (x : Int) (h0 : 0 ≤ x) (h : x < 2 ^ 63) : u64 x = x := by
  simp only [u64]
  norm_num at h ⊢
  omega

theorem usedVirtualMemory_fst (mem : sysinfo) (verbose withSwap : Bool) :
    (usedVirtualMemory mem verbose withSwap).1 =
      s64 ((if withSwap then
              s64 (u64 (u64 (s64 (u64 ((mem.totalram : Int) - mem.freeram))) +
                u64 ((mem.totalswap : Int) - mem.freeswap)))
            else s64 (u64 ((mem.totalram : Int) - mem.freeram))) * mem.mem_unit) := by
  unfold usedVirtualMemory
  rfl

theorem usedVirtualMemory_exact (mem : sysinfo) (verbose : Bool)
    (hram : mem.freeram ≤ mem.totalram) (hswap : mem.freeswap ≤ mem.totalswap)
    (hfit : ((mem.totalram - mem.freeram) + (mem.totalswap - mem.freeswap)) * mem.mem_unit
      < 2 ^ 63) :
    (usedVirtualMemory mem verbose false).1 =
      (((mem.totalram - mem.freeram) * mem.mem_unit : Nat) : Int) ∧
    (usedVirtualMemory mem verbose true).1 =
      ((((mem.totalram - mem.freeram) + (mem.totalswap - mem.freeswap)) * mem.mem_unit : Nat)
        : Int) := by
  obtain ⟨totalram, freeram, totalswap, freeswap, unit⟩ := mem
  simp only at hram hswap hfit
  obtain ⟨d1, rfl⟩ := Nat.exists_eq_add_of_le hram
  obtain ⟨d2, rfl⟩ := Nat.exists_eq_add_of_le hswap
  simp only [Nat.add_sub_cancel_left] at hfit ⊢
  have e1 : ((freeram + d1 : Nat) : Int) - (freeram : Int) = d1 := by push_cast; ring
  have e2 : ((freeswap + d2 : Nat) : Int) - (freeswap : Int) = d2 := by push_cast; ring
  simp only [usedVirtualMemory_fst, e1, e2, if_true, Bool.false_eq_true, if_false]
  rcases Nat.eq_zero_or_pos unit with hu | hu
  · subst hu
    simp [s64, wrapSigned]
  · have hsum : d1 + d2 < 2 ^ 63 := by
      calc d1 + d2 = (d1 + d2) * 1 := by ring
        _ ≤ (d1 + d2) * unit := Nat.mul_le_mul_left _ hu
        _ < 2 ^ 63 := hfit
    have hd1 : ((d1 : Nat) : Int) < 2 ^ 63 := by
      have : d1 < 2 ^ 63 := by omega
      exact_mod_cast this
    have hd2 : ((d2 : Nat) : Int) < 2 ^ 63 := by
      have : d2 < 2 ^ 63 := by omega
      exact_mod_cast this
    have hs : ((d1 : Nat) : Int) + (d2 : Int) < 2 ^ 63 := by exact_mod_cast hsum
    have hp1 : d1 * unit < 2 ^ 63 :=
      lt_of_le_of_lt (Nat.mul_le_mul_right _ (Nat.le_add_right d1 d2)) hfit
    rw [u64_of_lt d1 (by positivity) hd1, s64_of_lt d1 (by positivity) hd1,
      u64_of_lt d2 (by positivity) hd2, u64_of_lt d1 (by positivity) hd1,
      u64_of_lt _ (by positivity) hs, s64_of_lt _ (by positivity) hs]
    constructor
    · rw [s64_of_lt _ (by positivity) (by exact_mod_cast hp1)]
      push_cast; ring
    · rw [s64_of_lt _ (by positivity) (by exact_mod_cast hfit)]
      push_cast; ring

theorem totalVirtualMemory_raw (mem : sysinfo)
    (hfit : mem.totalram + mem.totalswap < 2 ^ 63) :
    totalVirtualMemory mem false = (mem.totalram : Int) ∧
    totalVirtualMemory mem true = ((mem.totalram + mem.totalswap : Nat) : Int) := by
  have h1 : ((mem.totalram : Nat) : Int) < 2 ^ 63 := by
    have : mem.totalram < 2 ^ 63 := by omega
    exact_mod_cast this
  have h2 : ((mem.totalram : Nat) : Int) + (mem.totalswap : Int) < 2 ^ 63 := by
    exact_mod_cast hfit
  simp only [totalVirtualMemory, if_true, Bool.false_eq_true, if_false]
  constructor
  · exact s64_of_lt _ (by positivity) h1
  · rw [u64_of_lt _ (by positivity) h2, s64_of_lt _ (by positivity) h2]
    push_cast; rfl

/-- C5. For every memory record with `freeram ≤ totalram`, `freeswap ≤
totalswap` and `((totalram - freeram) + (totalswap - freeswap)) * mem_unit <
2^63`, `usedVirtualMemory` returns `(totalram - freeram) * mem_unit` without
swap and `((totalram - freeram) + (totalswap - freeswap)) * mem_unit` with
swap, whatever the verbosity. -/
theorem C5_usedVirtualMemory_exact (mem : sysinfo) (verbose : Bool)
    (hram : mem.freeram ≤ mem.totalram) (hswap : mem.freeswap ≤ mem.totalswap)
    (hfit : ((mem.totalram - mem.freeram) + (mem.totalswap - mem.freeswap)) * mem.mem_unit
      < 2 ^ 63) :
    (usedVirtualMemory mem verbose false).1 =
      (((mem.totalram - mem.freeram) * mem.mem_unit : Nat) : Int) ∧
    (usedVirtualMemory mem verbose true).1 =
      ((((mem.totalram - mem.freeram) + (mem.totalswap - mem.freeswap)) * mem.mem_unit : Nat)
        : Int) :=
  usedVirtualMemory_exact mem verbose hram hswap hfit

/-- Witness of C5: the record 1000, 400, 200, 50 with unit 1 gives 600 and 750. -/
theorem C5_usedVirtualMemory_exact_witness :
    (usedVirtualMemory ⟨1000, 400, 200, 50, 1⟩ false false).1 = 600 ∧
    (usedVirtualMemory ⟨1000, 400, 200, 50, 1⟩ false true).1 = 750 :=
  C5_usedVirtualMemory_exact ⟨1000, 400, 200, 50, 1⟩ false (by decide) (by decide) (by decide)

/-- C6. For every memory record with `totalram + totalswap < 2^63`,
`totalVirtualMemory` returns `totalram` without swap and `totalram + totalswap`
with swap: the raw totals, not multiplied by `mem_unit` and independent of the
free amounts. -/
theorem C6_totalVirtualMemory_raw (mem : sysinfo)
    (hfit : mem.totalram + mem.totalswap < 2 ^ 63) :
    totalVirtualMemory mem false = (mem.totalram : Int) ∧
    totalVirtualMemory mem true = ((mem.totalram + mem.totalswap : Nat) : Int) :=
  totalVirtualMemory_raw mem hfit

/-- Witness of C6: the record 1000, 400, 200, 50 with unit 1 gives 1000 and
1200. -/
theorem C6_totalVirtualMemory_raw_witness :
    totalVirtualMemory ⟨1000, 400, 200, 50, 1⟩ false = 1000 ∧
    totalVirtualMemory ⟨1000, 400, 200, 50, 1⟩ true = 1200 :=
  C6_totalVirtualMemory_raw ⟨1000, 400, 200, 50, 1⟩ (by decide)

/-- C7 at the failing input: for the record 1000, 400, 0, 0 with unit 4096 the
used memory is 2457600 (scaled by the unit) and the total is 1000 (not scaled),
so used exceeds total; with swap, 1000, 400, 200, 50 and unit 4096 give
3072000 against 1200. -/
theorem C7_used_exceeds_total_when_unit_scaled :
    (usedVirtualMemory ⟨1000, 400, 0, 0, 4096⟩ false false).1 = 2457600 ∧
    totalVirtualMemory ⟨1000, 400, 0, 0, 4096⟩ false = 1000 ∧
    (usedVirtualMemory ⟨1000, 400, 200, 50, 4096⟩ false true).1 = 3072000 ∧
    totalVirtualMemory ⟨1000, 400, 200, 50, 4096⟩ true = 1200 ∧
    ¬ ((usedVirtualMemory ⟨1000, 400, 0, 0, 4096⟩ false false).1 ≤
        totalVirtualMemory ⟨1000, 400, 0, 0, 4096⟩ false) := by
  simp only [usedVirtualMemory_fst]
  decide

/-- With `mem_unit = 1` (no scaling) used memory does not exceed total memory in
the same mode. -/
theorem used_le_total_of_unit_one (mem : sysinfo) (verbose withSwap : Bool)
    (hram : mem.freeram ≤ mem.totalram) (hswap : mem.freeswap ≤ mem.totalswap)
    (hunit : mem.mem_unit = 1) (hfit : mem.totalram + mem.totalswap < 2 ^ 63) :
    (usedVirtualMemory mem verbose withSwap).1 ≤ totalVirtualMemory mem withSwap := by
  have hle : (mem.totalram - mem.freeram) + (mem.totalswap - mem.freeswap)
      ≤ mem.totalram + mem.totalswap :=
    Nat.add_le_add (Nat.sub_le _ _) (Nat.sub_le _ _)
  have hfit' : ((mem.totalram - mem.freeram) + (mem.totalswap - mem.freeswap)) * mem.mem_unit
      < 2 ^ 63 := by
    rw [hunit, Nat.mul_one]
    exact lt_of_le_of_lt hle hfit
  have hu := usedVirtualMemory_exact mem verbose hram hswap hfit'
  have ht := totalVirtualMemory_raw mem hfit
  cases withSwap
  · rw [hu.1, ht.1, hunit, Nat.mul_one]
    exact Int.ofNat_le.2 (Nat.sub_le _ _)
  · rw [hu.2, ht.2, hunit, Nat.mul_one]
    exact Int.ofNat_le.2 hle

/-! ## C10: the help flag -/

theorem argLoop_help (args : List String) : ∀ verbose useSwap : Bool,
    (∃ a ∈ args, a = "-h" ∨ a = "--help") → argLoop args verbose useSwap = ArgScan.helpRequested := by
  induction args with
  | nil => intro _ _ h; simp at h
  | cons arg rest ih =>
    intro verbose useSwap h
    by_cases ha : arg = "-h" ∨ arg = "--help"
    · simp [argLoop, ha]
    · obtain ⟨a, hmem, hflag⟩ := h
      have hrest : ∃ a ∈ rest, a = "-h" ∨ a = "--help" := by
        rcases List.mem_cons.1 hmem with h1 | h1
        · subst h1; exact absurd hflag ha
        · exact ⟨a, h1, hflag⟩
      simp only [argLoop, ha, if_false]
      exact ih _ _ hrest

/-- C10. On a Linux host (`OSCOMPAT` set), for every argument vector in which
some argument after the program name is exactly `-h` or `--help`, `main`
prints the usage text and nothing else, returns 0, and invokes only `help`: no
telemetry reader runs, wherever the flag stands and whatever other arguments
are present. -/
theorem C10_help_flag (argv : List String) (h : Host)
    (hflag : ∃ a ∈ argv.tail, a = "-h" ∨ a = "--help") :
    main true argv h =
      some { exit := 0, stdout := [helpText ++ "\n\n"], stderr := [], calls := [Call.help] } := by
  simp only [main, if_true, argLoop_help argv.tail false false hflag]
  rfl

/-- Witness of C10: `inspect -v -s --help`. -/
theorem C10_help_flag_witness :
    main true ["inspect", "-v", "-s", "--help"]
      ⟨some "6.1.0", some "cpu  10 20 30 40 50 60 70\nctxt 5\nprocesses 42\n".toList,
        ⟨1000, 400, 200, 50, 1⟩, ⟨0, 0, 0, 0, 0, 0, 0⟩, [], ⟨0, 0, 0, 0, 0, 0, 0⟩, 0, 0⟩ =
      some { exit := 0, stdout := [helpText ++ "\n\n"], stderr := [], calls := [Call.help] } :=
  C10_help_flag _ _ ⟨"--help", by decide, Or.inr rfl⟩

end Linspect
